import Mathlib

/-! Page-table entry codec (`src/threads/pte.h`)

A shallow embedding of the inline functions of `threads/pte.h`.

* A `uint32_t` / `uintptr_t` / pointer value is a `Nat` (below `2 ^ 32` where a
  statement needs the width); an `int` is an `Int` (32-bit two's complement,
  wrapped explicitly where an operation can leave the range).
* A function that updates `*pte` in place is a function from the old word to the
  new word.
* `ASSERT (c)` makes the function return `none` when `c` is false.
* `vtop` and `ptov` are declared in `threads/vaddr.h`, which is not part of the
  sources at hand; the functions that call them take them as parameters.
-/

namespace Pte

/-! ## The parts of `threads/vaddr.h` that `pte.h` uses -/

/-- Modelled from the spec: the constant `PGBITS` of `threads/vaddr.h` (absent from the
sources), the page-offset bit width; the spec puts the page offset in the low 12 bits. -/
def PGBITS : Nat := 12

/-- Modelled from the spec: the macro `BITMASK(SHIFT, CNT)` of `threads/vaddr.h` (absent
from the sources): `CNT` one bits starting at bit `SHIFT`, as the comments
"Page table bits (12:21)" and "Page directory bits (22:31)" of `pte.h` require. -/
def BITMASK (shift cnt : Nat) : Nat := ((1 <<< cnt) - 1) <<< shift

/-- Modelled from the spec: the page-alignment query `pg_ofs` of `threads/vaddr.h` (absent
from the sources): given an address, its offset within a page, i.e. its low `PGBITS` bits. -/
def pg_ofs (va : Nat) : Nat := va &&& BITMASK 0 PGBITS

/-! ## Machine integers -/

/-- The value of an `int` expression whose mathematical result is `i`: 32-bit two's
complement wrap-around. -/
def wrapInt32 (i : Int) : Int := (i + 2147483648) % 4294967296 - 2147483648

/-- Conversion of an `int` to `uint32_t` (reduction modulo `2 ^ 32`). -/
def toUInt32 (i : Int) : Nat := (i % 4294967296).toNat

/-- Conversion of a `uint32_t` to `int` (the cast `(int) x`). -/
def toInt32 (n : Nat) : Int := wrapInt32 (n : Int)

/-- Bitwise complement `~x` of a `uint32_t`. -/
def not32 (x : Nat) : Nat := x ^^^ 0xffffffff

/-- The `int` expression `a << n`. -/
def shlInt32 (a : Int) (n : Nat) : Int := wrapInt32 (a * 2 ^ n)

/-! ## Address decomposition -/

def PTSHIFT : Nat := PGBITS
def PTBITS : Nat := 10
def PTMASK : Nat := BITMASK PTSHIFT PTBITS

def PDSHIFT : Nat := PTSHIFT + PTBITS
def PDBITS : Nat := 10
def PDMASK : Nat := BITMASK PDSHIFT PDBITS

/-- Obtains page table index from a virtual address. -/
def pt_no (va : Nat) : Nat := (va &&& PTMASK) >>> PTSHIFT

/-- Obtains page directory index from a virtual address. -/
def pd_no (va : Nat) : Nat := va >>> PDSHIFT

/-! ## Entry format -/

def PTE_FLAGS : Nat := 0x00000fff
def PTE_ADDR : Nat := 0xfffff000
def PTE_AVL : Nat := 0x00000e00
def PTE_P : Nat := 0x1
def PTE_W : Nat := 0x2
def PTE_U : Nat := 0x4
def PTE_MMF : Nat := 0x8
def PTE_SHARED : Nat := 0x10
def PTE_A : Nat := 0x20
def PTE_D : Nat := 0x40
def MAX_SWAP_PAGE_NO : Int := 0xfffff

/-- Returns a PDE that points to page table `pt`. -/
def pde_create (vtop : Nat → Nat) (pt : Nat) : Option Nat :=
  if pg_ofs pt = 0 then some (vtop pt ||| PTE_U ||| PTE_P ||| PTE_W) else none

/-- Returns a pointer to the page table that page directory entry `pde`, which must be
"present", points to. -/
def pde_get_pt (ptov : Nat → Nat) (pde : Nat) : Option Nat :=
  if pde &&& PTE_P ≠ 0 then some (ptov (pde &&& PTE_ADDR)) else none

/-- Returns a PTE that points to `page`, usable only by the kernel. -/
def pte_create_kernel (vtop : Nat → Nat) (page : Nat) (writable : Bool) : Option Nat :=
  if pg_ofs page = 0 then
    some (vtop page ||| PTE_P ||| (if writable then PTE_W else 0))
  else none

/-- Returns a PTE that points to `page`, usable by both user and kernel code. -/
def pte_create_user (vtop : Nat → Nat) (page : Nat) (writable : Bool) : Option Nat :=
  (pte_create_kernel vtop page writable).map (fun pte => pte ||| PTE_U)

/-- Returns a pointer to the page that page table entry `pte` points to. -/
def pte_get_page (ptov : Nat → Nat) (pte : Nat) : Nat :=
  ptov (pte &&& PTE_ADDR)

def set_MMF (pte : Nat) : Nat := pte ||| PTE_MMF

def is_MMF (pte : Nat) : Bool := (pte &&& PTE_MMF) != 0

def set_shared (pte : Nat) : Nat := pte ||| PTE_SHARED

def is_shared (pte : Nat) : Bool := (pte &&& PTE_SHARED) != 0

/-- Stores a swap slot number in the address field: asserts `swap_page_no < MAX_SWAP_PAGE_NO`
(a comparison of two `int`s), clears the address field, then ors in the shifted slot
number (an `int`, converted to `uint32_t` for the `|`). -/
def set_swap_page_no (pte : Nat) (swap_page_no : Int) : Option Nat :=
  if swap_page_no < MAX_SWAP_PAGE_NO then
    let pte1 := pte &&& not32 PTE_ADDR
    some (pte1 ||| toUInt32 (shlInt32 swap_page_no PGBITS))
  else none

def get_swap_page_no (pte : Nat) : Int := toInt32 (pte >>> PGBITS)

/-! ## Arithmetic reading of the bit operations -/

theorem and_flags_eq_mod (x : Nat) : x &&& 0xfff = x % 4096 :=
  Nat.and_pow_two_sub_one_eq_mod x 12

theorem shiftRight_12 (x : Nat) : x >>> 12 = x / 4096 := by
  rw [Nat.shiftRight_eq_div_pow]

theorem mul_or_flags (a f : Nat) (hf : f < 4096) : 4096 * a ||| f = 4096 * a + f :=
  (Nat.mul_add_lt_is_or (i := 12) hf a).symm

theorem PTE_ADDR_eq : PTE_ADDR = (2 ^ 20 - 1) <<< 12 := by decide

theorem PTMASK_eq : PTMASK = (2 ^ 10 - 1) <<< 12 := by decide

theorem and_addr_eq (x : Nat) (hx : x < 2 ^ 32) : x &&& PTE_ADDR = 4096 * (x / 4096) := by
  apply Nat.eq_of_testBit_eq
  intro i
  have h4096 : (4096 : Nat) = 2 ^ 12 := by norm_num
  rw [PTE_ADDR_eq, Nat.testBit_and, Nat.testBit_shiftLeft, Nat.testBit_two_pow_sub_one, h4096,
    Nat.testBit_mul_pow_two, ← Nat.shiftRight_eq_div_pow, Nat.testBit_shiftRight]
  by_cases h12 : i ≥ 12
  · have e2 : 12 + (i - 12) = i := by omega
    by_cases h32 : i < 32
    · have e1 : i - 12 < 20 := by omega
      simp [h12, e1, e2]
    · have hlt : x < 2 ^ i := lt_of_lt_of_le hx (Nat.pow_le_pow_right (by norm_num) (by omega))
      simp [Nat.testBit_lt_two_pow hlt, e2]
  · simp [h12]

theorem pg_ofs_eq (va : Nat) : pg_ofs va = va % 4096 :=
  Nat.and_pow_two_sub_one_eq_mod va 12

theorem pt_no_eq (va : Nat) : pt_no va = va / 4096 % 1024 := by
  apply Nat.eq_of_testBit_eq
  intro i
  have h4096 : (4096 : Nat) = 2 ^ 12 := by norm_num
  have h1024 : (1024 : Nat) = 2 ^ 10 := by norm_num
  have hs : PTSHIFT = 12 := rfl
  unfold pt_no
  rw [PTMASK_eq, hs, Nat.testBit_shiftRight, Nat.testBit_and, Nat.testBit_shiftLeft,
    Nat.testBit_two_pow_sub_one, h4096, h1024, Nat.testBit_mod_two_pow,
    ← Nat.shiftRight_eq_div_pow, Nat.testBit_shiftRight]
  by_cases h : i < 10 <;> simp [h, Bool.and_comm]

theorem pd_no_eq (va : Nat) : pd_no va = va / 4194304 := by
  unfold pd_no
  rw [Nat.shiftRight_eq_div_pow]
  rfl


theorem shifted_slot_aligned (s : Int) :
    toUInt32 (shlInt32 s PGBITS) = 4096 * (toUInt32 (shlInt32 s PGBITS) / 4096) := by
  have hp : (2 : Int) ^ PGBITS = 4096 := by decide
  unfold toUInt32 shlInt32 wrapInt32
  rw [hp]
  omega

theorem shifted_slot_field (s : Int) (h0 : 0 ≤ s) (h1 : s < 1048576) :
    toUInt32 (shlInt32 s PGBITS) / 4096 = s.toNat := by
  have hp : (2 : Int) ^ PGBITS = 4096 := by decide
  unfold toUInt32 shlInt32 wrapInt32
  rw [hp]
  omega

theorem set_swap_page_no_eq (e : Nat) (s : Int) (h : s < MAX_SWAP_PAGE_NO) :
    set_swap_page_no e s
      = some (4096 * (toUInt32 (shlInt32 s PGBITS) / 4096) + e % 4096) := by
  have hn : not32 PTE_ADDR = 0xfff := by decide
  unfold set_swap_page_no
  rw [if_pos h]
  simp only [hn, and_flags_eq_mod]
  have hu := shifted_slot_aligned s
  generalize toUInt32 (shlInt32 s PGBITS) = u at hu ⊢
  rw [Nat.lor_comm]
  nth_rewrite 1 [hu]
  rw [mul_or_flags _ _ (Nat.mod_lt _ (by norm_num))]

/-- C1: for every entry word `e` and every slot index `s` with `0 <= s < MAX_SWAP_PAGE_NO`,
`set_swap_page_no (e, s)` passes its assertion and `get_swap_page_no` of the word it leaves
is `s`, whatever `e` held before. -/
theorem swap_page_no_round_trip (e : Nat) (s : Int) (h0 : 0 ≤ s) (h1 : s < MAX_SWAP_PAGE_NO) :
    (set_swap_page_no e s).map get_swap_page_no = some s := by
  have h1' : s < 1048575 := by simpa [MAX_SWAP_PAGE_NO] using h1
  have h2 : s < 1048576 := by omega
  have hg : ∀ n : Nat, n < 1048576 → get_swap_page_no (4096 * n + e % 4096) = (n : Int) := by
    intro n hn
    unfold get_swap_page_no toInt32 wrapInt32
    rw [show PGBITS = 12 from rfl, shiftRight_12]
    have : (4096 * n + e % 4096) / 4096 = n := by omega
    rw [this]
    omega
  rw [set_swap_page_no_eq e s h1, shifted_slot_field s h0 h2, Option.map_some',
    hg _ (by omega), Int.toNat_of_nonneg h0]

theorem swap_page_no_round_trip_witness :
    (set_swap_page_no 0xdeadbeef 42).map get_swap_page_no = some 42 :=
  swap_page_no_round_trip 0xdeadbeef 42 (by decide) (by decide)

theorem pde_create_eq (vtop : Nat → Nat) (pt : Nat) (hal : pg_ofs pt = 0)
    (hpal : pg_ofs (vtop pt) = 0) :
    pde_create vtop pt = some (4096 * (vtop pt / 4096) + 7) := by
  have hv : vtop pt = 4096 * (vtop pt / 4096) := by
    rw [pg_ofs_eq] at hpal
    omega
  unfold pde_create
  rw [if_pos hal, Nat.lor_assoc, Nat.lor_assoc]
  have hf : PTE_U ||| (PTE_P ||| PTE_W) = 7 := by decide
  rw [hf]
  nth_rewrite 1 [hv]
  rw [mul_or_flags _ _ (by norm_num)]

theorem pte_create_kernel_eq (vtop : Nat → Nat) (page : Nat) (w : Bool)
    (hal : pg_ofs page = 0) (hpal : pg_ofs (vtop page) = 0) :
    pte_create_kernel vtop page w
      = some (4096 * (vtop page / 4096) + (if w then 3 else 1)) := by
  have hv : vtop page = 4096 * (vtop page / 4096) := by
    rw [pg_ofs_eq] at hpal
    omega
  unfold pte_create_kernel
  rw [if_pos hal, Nat.lor_assoc]
  have hf : (PTE_P ||| if w = true then PTE_W else 0) = if w = true then 3 else 1 := by
    cases w <;> decide
  rw [hf]
  nth_rewrite 1 [hv]
  rw [mul_or_flags _ _ (by cases w <;> simp)]

theorem pte_create_user_eq (vtop : Nat → Nat) (page : Nat) (w : Bool)
    (hal : pg_ofs page = 0) (hpal : pg_ofs (vtop page) = 0) :
    pte_create_user vtop page w
      = some (4096 * (vtop page / 4096) + (if w then 7 else 5)) := by
  unfold pte_create_user
  rw [pte_create_kernel_eq vtop page w hal hpal, Option.map_some']
  have h1 : (if w = true then 3 else 1) < 4096 := by cases w <;> simp
  have h2 : (if w = true then 7 else 5) < 4096 := by cases w <;> simp
  rw [← mul_or_flags _ _ h1, ← mul_or_flags _ _ h2, Nat.lor_assoc]
  congr 2
  cases w <;> decide

theorem addr_of_entry (a f : Nat) (ha : 4096 * a < 2 ^ 32) (hf : f < 4096) :
    (4096 * a + f) &&& PTE_ADDR = 4096 * a := by
  rw [and_addr_eq _ (by omega)]
  omega

theorem testBit_entry_flags (a f i : Nat) (hf : f < 4096) (hi : i < 12) :
    (4096 * a + f).testBit i = f.testBit i := by
  have h4096 : (4096 : Nat) = 2 ^ 12 := by norm_num
  rw [← mul_or_flags a f hf, Nat.testBit_or, h4096, Nat.testBit_mul_pow_two]
  simp [hi]

theorem and_flag_of_entry (a f m : Nat) (hf : f < 4096) (hm : m < 4096) :
    (4096 * a + f) &&& m = f &&& m := by
  apply Nat.eq_of_testBit_eq
  intro i
  rw [Nat.testBit_and, Nat.testBit_and]
  by_cases hi : i < 12
  · rw [testBit_entry_flags a f i hf hi]
  · have hlt : m < 2 ^ i :=
      lt_of_lt_of_le hm (le_trans (by norm_num) (Nat.pow_le_pow_right (by norm_num)
        (Nat.le_of_not_lt hi)))
    simp [Nat.testBit_lt_two_pow hlt]

/-- C2: if `pt` is page-aligned, `vtop pt` is a page-aligned 32-bit physical address and
`ptov` undoes `vtop` at `pt`, then `pde_create pt` passes its assertion, `pde_get_pt` of the
entry passes its assertion too, and it returns `pt`. -/
theorem pde_round_trip (vtop ptov : Nat → Nat) (pt : Nat) (hal : pg_ofs pt = 0)
    (hpal : pg_ofs (vtop pt) = 0) (hlt : vtop pt < 2 ^ 32) (hinv : ptov (vtop pt) = pt) :
    ∃ pde, pde_create vtop pt = some pde ∧ pde_get_pt ptov pde = some pt := by
  have hv : 4096 * (vtop pt / 4096) = vtop pt := by
    rw [pg_ofs_eq] at hpal
    omega
  refine ⟨_, pde_create_eq vtop pt hal hpal, ?_⟩
  have hp : (4096 * (vtop pt / 4096) + 7) &&& PTE_P ≠ 0 := by
    have h1 : (4096 * (vtop pt / 4096) + 7) &&& PTE_P
        = (4096 * (vtop pt / 4096) + 7) % 2 := Nat.and_pow_two_sub_one_eq_mod _ 1
    rw [h1]
    omega
  unfold pde_get_pt
  rw [if_pos hp, addr_of_entry _ _ (by omega) (by norm_num), hv, hinv]

theorem pde_round_trip_witness :
    ∃ pde, pde_create (fun v => v - 0xc0000000) 0xc0100000 = some pde
      ∧ pde_get_pt (fun p => p + 0xc0000000) pde = some 0xc0100000 :=
  pde_round_trip (fun v => v - 0xc0000000) (fun p => p + 0xc0000000) 0xc0100000
    (by decide) (by decide) (by decide) (by decide)

/-- C3: if `page` is page-aligned, `vtop page` is a page-aligned 32-bit physical address and
`ptov` undoes `vtop` at `page`, then for every `w` both `pte_create_kernel (page, w)` and
`pte_create_user (page, w)` pass the assertion, `pte_get_page` of either entry is `page`,
and bit 1 (writable) of either entry is set exactly when `w` is true. -/
theorem pte_round_trip (vtop ptov : Nat → Nat) (page : Nat) (w : Bool)
    (hal : pg_ofs page = 0) (hpal : pg_ofs (vtop page) = 0) (hlt : vtop page < 2 ^ 32)
    (hinv : ptov (vtop page) = page) :
    (∃ pte, pte_create_kernel vtop page w = some pte ∧ pte_get_page ptov pte = page
        ∧ pte.testBit 1 = w ∧ ((pte &&& PTE_W ≠ 0) ↔ w = true))
    ∧ (∃ pte, pte_create_user vtop page w = some pte ∧ pte_get_page ptov pte = page
        ∧ pte.testBit 1 = w ∧ ((pte &&& PTE_W ≠ 0) ↔ w = true)) := by
  have hv : 4096 * (vtop page / 4096) = vtop page := by
    rw [pg_ofs_eq] at hpal
    omega
  have hk : (if w = true then 3 else 1) < 4096 := by cases w <;> simp
  have hu : (if w = true then 7 else 5) < 4096 := by cases w <;> simp
  refine ⟨⟨_, pte_create_kernel_eq vtop page w hal hpal, ?_, ?_, ?_⟩,
    ⟨_, pte_create_user_eq vtop page w hal hpal, ?_, ?_, ?_⟩⟩
  · unfold pte_get_page
    rw [addr_of_entry _ _ (by omega) hk, hv, hinv]
  · rw [testBit_entry_flags _ _ 1 hk (by norm_num)]
    cases w <;> decide
  · rw [and_flag_of_entry _ _ PTE_W hk (by decide)]
    cases w <;> decide
  · unfold pte_get_page
    rw [addr_of_entry _ _ (by omega) hu, hv, hinv]
  · rw [testBit_entry_flags _ _ 1 hu (by norm_num)]
    cases w <;> decide
  · rw [and_flag_of_entry _ _ PTE_W hu (by decide)]
    cases w <;> decide

theorem pte_round_trip_witness :
    (∃ pte, pte_create_kernel (fun v => v - 0xc0000000) 0xc0100000 true = some pte
        ∧ pte_get_page (fun p => p + 0xc0000000) pte = 0xc0100000
        ∧ pte.testBit 1 = true ∧ ((pte &&& PTE_W ≠ 0) ↔ true = true))
    ∧ (∃ pte, pte_create_user (fun v => v - 0xc0000000) 0xc0100000 true = some pte
        ∧ pte_get_page (fun p => p + 0xc0000000) pte = 0xc0100000
        ∧ pte.testBit 1 = true ∧ ((pte &&& PTE_W ≠ 0) ↔ true = true)) :=
  pte_round_trip (fun v => v - 0xc0000000) (fun p => p + 0xc0000000) 0xc0100000 true
    (by decide) (by decide) (by decide) (by decide)

/-- C4: `set_swap_page_no (e, s)` fails its assertion for `s = MAX_SWAP_PAGE_NO` and for every
`s` above it; it succeeds for `s = MAX_SWAP_PAGE_NO - 1` and for every `s` with
`0 <= s < MAX_SWAP_PAGE_NO`, leaving the word whose low 12 bits are those of `e` and whose
address field is `s`. -/
theorem set_swap_page_no_bound (e : Nat) (s : Int) :
    (MAX_SWAP_PAGE_NO ≤ s → set_swap_page_no e s = none)
    ∧ set_swap_page_no e MAX_SWAP_PAGE_NO = none
    ∧ (0 ≤ s → s < MAX_SWAP_PAGE_NO →
        set_swap_page_no e s = some (4096 * s.toNat + e % 4096))
    ∧ set_swap_page_no e (MAX_SWAP_PAGE_NO - 1) = some (4096 * 0xffffe + e % 4096) := by
  have hfail : ∀ t : Int, MAX_SWAP_PAGE_NO ≤ t → set_swap_page_no e t = none := by
    intro t ht
    unfold set_swap_page_no
    rw [if_neg (not_lt.mpr ht)]
  have hok : ∀ t : Int, 0 ≤ t → t < MAX_SWAP_PAGE_NO →
      set_swap_page_no e t = some (4096 * t.toNat + e % 4096) := by
    intro t h0 h1
    have h1' : t < 1048575 := by simpa [MAX_SWAP_PAGE_NO] using h1
    rw [set_swap_page_no_eq e t h1, shifted_slot_field t h0 (by omega)]
  refine ⟨hfail s, hfail _ le_rfl, hok s, ?_⟩
  have h := hok (MAX_SWAP_PAGE_NO - 1) (by decide) (by decide)
  rw [h]
  rfl

theorem set_swap_page_no_bound_witness :
    set_swap_page_no 0xdeadbeef 0x100000 = none
    ∧ set_swap_page_no 0xdeadbeef 42 = some (4096 * (42 : Int).toNat + 0xdeadbeef % 4096) :=
  ⟨(set_swap_page_no_bound 0xdeadbeef 0x100000).1 (by decide),
    (set_swap_page_no_bound 0xdeadbeef 42).2.2.1 (by decide) (by decide)⟩

/-- C5 (evaluation at the failing input): the slot value `-1` passes the assertion of
`set_swap_page_no`, is stored as the address field `0xfffff`, and `get_swap_page_no` then
returns `1048575`, not `-1`. -/
theorem set_swap_page_no_negative_wraps :
    (-1 : Int) < MAX_SWAP_PAGE_NO
    ∧ set_swap_page_no 0 (-1) = some 0xfffff000
    ∧ (set_swap_page_no 0 (-1)).map get_swap_page_no = some 1048575
    ∧ ¬ (0 ≤ (-1 : Int) ∧ (-1 : Int) < 2 ^ 20) := by
  decide

/-- C6: whenever `set_swap_page_no (e, s)` passes its assertion, bits 0-11 of the word are
the same after the call as before; in particular the present bit, `is_MMF` and `is_shared`
are unchanged. -/
theorem set_swap_page_no_keeps_flags (e : Nat) (s : Int) (e1 : Nat)
    (h : set_swap_page_no e s = some e1) :
    (∀ i, i < 12 → e1.testBit i = e.testBit i)
    ∧ e1 &&& PTE_FLAGS = e &&& PTE_FLAGS
    ∧ e1 &&& PTE_P = e &&& PTE_P
    ∧ is_MMF e1 = is_MMF e
    ∧ is_shared e1 = is_shared e := by
  have hs : s < MAX_SWAP_PAGE_NO := by
    by_contra hn
    unfold set_swap_page_no at h
    rw [if_neg hn] at h
    exact Option.noConfusion h
  rw [set_swap_page_no_eq e s hs] at h
  have he1 := (Option.some.inj h).symm
  have hlt : e % 4096 < 4096 := Nat.mod_lt _ (by norm_num)
  have hmask : ∀ m : Nat, m < 4096 → e1 &&& m = e &&& m := by
    intro m hm
    rw [he1, and_flag_of_entry _ _ m hlt hm]
    have hdm : e = 4096 * (e / 4096) + e % 4096 := (Nat.div_add_mod e 4096).symm
    nth_rewrite 2 [hdm]
    rw [and_flag_of_entry _ _ m hlt hm]
  refine ⟨?_, hmask _ (by decide), hmask _ (by decide), ?_, ?_⟩
  · intro i hi
    rw [he1, testBit_entry_flags _ _ i hlt hi]
    have hdm : e = 4096 * (e / 4096) + e % 4096 := (Nat.div_add_mod e 4096).symm
    nth_rewrite 2 [hdm]
    rw [testBit_entry_flags _ _ i hlt hi]
  · unfold is_MMF
    rw [hmask _ (by decide)]
  · unfold is_shared
    rw [hmask _ (by decide)]

theorem set_swap_page_no_keeps_flags_witness :
    (∀ i, i < 12 → (0x0002a01f : Nat).testBit i = (0xdeadb01f : Nat).testBit i)
    ∧ 0x0002a01f &&& PTE_FLAGS = 0xdeadb01f &&& PTE_FLAGS
    ∧ 0x0002a01f &&& PTE_P = 0xdeadb01f &&& PTE_P
    ∧ is_MMF 0x0002a01f = is_MMF 0xdeadb01f
    ∧ is_shared 0x0002a01f = is_shared 0xdeadb01f :=
  set_swap_page_no_keeps_flags 0xdeadb01f 42 0x0002a01f (by decide)

theorem or_and_flag (x a b : Nat) : (x ||| a) &&& b = (x &&& b) ||| (a &&& b) := by
  apply Nat.eq_of_testBit_eq
  intro i
  simp only [Nat.testBit_and, Nat.testBit_or]
  cases x.testBit i <;> cases a.testBit i <;> cases b.testBit i <;> rfl

/-- C7: `set_MMF` does not change what `is_shared` returns, `set_shared` does not change
what `is_MMF` returns, and starting from the zero entry the four combinations of
(`is_MMF`, `is_shared`) are reached by applying neither, one, the other, or both setters. -/
theorem mmf_shared_independent (e : Nat) :
    is_shared (set_MMF e) = is_shared e
    ∧ is_MMF (set_shared e) = is_MMF e
    ∧ (is_MMF 0, is_shared 0) = (false, false)
    ∧ (is_MMF (set_MMF 0), is_shared (set_MMF 0)) = (true, false)
    ∧ (is_MMF (set_shared 0), is_shared (set_shared 0)) = (false, true)
    ∧ (is_MMF (set_shared (set_MMF 0)), is_shared (set_shared (set_MMF 0))) = (true, true) := by
  refine ⟨?_, ?_, by decide, by decide, by decide, by decide⟩
  · unfold is_shared set_MMF
    rw [or_and_flag, show PTE_MMF &&& PTE_SHARED = 0 from by decide, Nat.or_zero]
  · unfold is_MMF set_shared
    rw [or_and_flag, show PTE_SHARED &&& PTE_MMF = 0 from by decide, Nat.or_zero]

/-- C8: for every 32-bit virtual address `va`, `pt_no va` is bits 12-21 of `va`, that is
`(va >> 12) mod 1024`, `pd_no va` is bits 22-31 of `va`, that is `va >> 22`, and both lie
in `[0, 1023]`. -/
theorem index_extraction (va : Nat) (hva : va < 2 ^ 32) :
    pt_no va = (va >>> 12) % 1024
    ∧ pd_no va = va >>> 22
    ∧ (∀ i, (pt_no va).testBit i = (decide (i < 10) && va.testBit (12 + i)))
    ∧ (∀ i, (pd_no va).testBit i = (decide (i < 10) && va.testBit (22 + i)))
    ∧ pt_no va ≤ 1023
    ∧ pd_no va ≤ 1023 := by
  refine ⟨?_, rfl, ?_, ?_, ?_, ?_⟩
  · rw [pt_no_eq, shiftRight_12]
  · intro i
    rw [pt_no_eq, show (1024 : Nat) = 2 ^ 10 from rfl, show (4096 : Nat) = 2 ^ 12 from rfl,
      Nat.testBit_mod_two_pow, ← Nat.shiftRight_eq_div_pow, Nat.testBit_shiftRight]
  · intro i
    unfold pd_no
    rw [show PDSHIFT = 22 from rfl, Nat.testBit_shiftRight]
    by_cases hi : i < 10
    · simp [hi]
    · have hlt : va < 2 ^ (22 + i) :=
        lt_of_lt_of_le hva (Nat.pow_le_pow_right (by norm_num) (by omega))
      simp [hi, Nat.testBit_lt_two_pow hlt]
  · rw [pt_no_eq]
    omega
  · rw [pd_no_eq]
    omega

theorem index_extraction_witness :
    pt_no 0xdeadbeef = (0xdeadbeef >>> 12) % 1024
    ∧ pd_no 0xdeadbeef = 0xdeadbeef >>> 22
    ∧ (∀ i, (pt_no 0xdeadbeef).testBit i
        = (decide (i < 10) && (0xdeadbeef : Nat).testBit (12 + i)))
    ∧ (∀ i, (pd_no 0xdeadbeef).testBit i
        = (decide (i < 10) && (0xdeadbeef : Nat).testBit (22 + i)))
    ∧ pt_no 0xdeadbeef ≤ 1023
    ∧ pd_no 0xdeadbeef ≤ 1023 :=
  index_extraction 0xdeadbeef (by decide)

/-- C9: for every virtual address `va`, `pd_no va * 1024 + pt_no va` is `va >> 12`, the
virtual page number. -/
theorem index_partition (va : Nat) : pd_no va * 1024 + pt_no va = va >>> 12 := by
  rw [pt_no_eq, pd_no_eq, shiftRight_12]
  omega

/-- C10: for every page-aligned address `b` and every offset `o` in `[0, 4095]`, `pt_no`
and `pd_no` of `b + o` are those of `b`. -/
theorem index_offset_independent (b o : Nat) (hb : pg_ofs b = 0) (ho : o ≤ 4095) :
    pt_no (b + o) = pt_no b ∧ pd_no (b + o) = pd_no b := by
  rw [pg_ofs_eq] at hb
  rw [pt_no_eq, pt_no_eq, pd_no_eq, pd_no_eq]
  constructor <;> omega

theorem index_offset_independent_witness :
    pt_no (0xdeadb000 + 0xeef) = pt_no 0xdeadb000
    ∧ pd_no (0xdeadb000 + 0xeef) = pd_no 0xdeadb000 :=
  index_offset_independent 0xdeadb000 0xeef (by decide) (by decide)

/-- C11: if `pt` is page-aligned and `vtop pt` is a page-aligned 32-bit physical address,
`pde_create pt` passes its assertion and the entry has low 12 bits exactly
`PTE_P | PTE_W | PTE_U = 0x007` (MMF, shared, accessed, dirty and OS-available bits clear)
and bits 12-31 equal to `vtop pt`. -/
theorem pde_create_layout (vtop : Nat → Nat) (pt : Nat) (hal : pg_ofs pt = 0)
    (hpal : pg_ofs (vtop pt) = 0) (hlt : vtop pt < 2 ^ 32) :
    ∃ pde, pde_create vtop pt = some pde
      ∧ pde &&& PTE_FLAGS = (PTE_P ||| PTE_W ||| PTE_U)
      ∧ pde &&& PTE_FLAGS = 0x007
      ∧ pde &&& (PTE_MMF ||| PTE_SHARED ||| PTE_A ||| PTE_D ||| PTE_AVL) = 0
      ∧ pde &&& PTE_ADDR = vtop pt
      ∧ pde >>> 12 = vtop pt >>> 12 := by
  have hv : 4096 * (vtop pt / 4096) = vtop pt := by
    rw [pg_ofs_eq] at hpal
    omega
  refine ⟨_, pde_create_eq vtop pt hal hpal, ?_, ?_, ?_, ?_, ?_⟩
  · rw [and_flag_of_entry _ _ PTE_FLAGS (by norm_num) (by decide)]
    decide
  · rw [and_flag_of_entry _ _ PTE_FLAGS (by norm_num) (by decide)]
    decide
  · rw [and_flag_of_entry _ _ _ (by norm_num) (by decide)]
    decide
  · rw [addr_of_entry _ _ (by omega) (by norm_num), hv]
  · rw [shiftRight_12, shiftRight_12]
    omega

theorem pde_create_layout_witness :
    ∃ pde, pde_create (fun v => v - 0xc0000000) 0xc0100000 = some pde
      ∧ pde &&& PTE_FLAGS = (PTE_P ||| PTE_W ||| PTE_U)
      ∧ pde &&& PTE_FLAGS = 0x007
      ∧ pde &&& (PTE_MMF ||| PTE_SHARED ||| PTE_A ||| PTE_D ||| PTE_AVL) = 0
      ∧ pde &&& PTE_ADDR = (fun v => v - 0xc0000000) 0xc0100000
      ∧ pde >>> 12 = (fun v => v - 0xc0000000) 0xc0100000 >>> 12 :=
  pde_create_layout (fun v => v - 0xc0000000) 0xc0100000 (by decide) (by decide) (by decide)

/-- C12: if `page` is page-aligned and `vtop page` is a page-aligned 32-bit physical address,
`pte_create_kernel (page, w)` is an entry whose low 12 bits are `PTE_P`, plus `PTE_W`
exactly when `w` is true (user bit and every other flag clear), and whose bits 12-31 are
`vtop page`; `pte_create_user (page, w)` is that word with exactly bit 2 (`PTE_U`)
additionally set. -/
theorem pte_create_layout (vtop : Nat → Nat) (page : Nat) (w : Bool)
    (hal : pg_ofs page = 0) (hpal : pg_ofs (vtop page) = 0) (hlt : vtop page < 2 ^ 32) :
    ∃ k u, pte_create_kernel vtop page w = some k
      ∧ pte_create_user vtop page w = some u
      ∧ k &&& PTE_FLAGS = (if w then PTE_P ||| PTE_W else PTE_P)
      ∧ k &&& PTE_P = PTE_P
      ∧ ((k &&& PTE_W ≠ 0) ↔ w = true)
      ∧ k &&& PTE_U = 0
      ∧ k &&& PTE_ADDR = vtop page
      ∧ u = k ||| PTE_U
      ∧ u ^^^ k = PTE_U
      ∧ (∀ i, i ≠ 2 → u.testBit i = k.testBit i)
      ∧ u.testBit 2 = true := by
  have hv : 4096 * (vtop page / 4096) = vtop page := by
    rw [pg_ofs_eq] at hpal
    omega
  have hk : (if w = true then 3 else 1) < 4096 := by cases w <;> simp
  have hu : (if w = true then 7 else 5) < 4096 := by cases w <;> simp
  have huk : 4096 * (vtop page / 4096) + (if w = true then 7 else 5)
      = (4096 * (vtop page / 4096) + (if w = true then 3 else 1)) ||| PTE_U := by
    have h := pte_create_user_eq vtop page w hal hpal
    unfold pte_create_user at h
    rw [pte_create_kernel_eq vtop page w hal hpal, Option.map_some'] at h
    exact (Option.some.inj h).symm
  have hbit : ∀ i, (4096 * (vtop page / 4096) + (if w = true then 7 else 5)).testBit i
      = ((4096 * (vtop page / 4096) + (if w = true then 3 else 1)).testBit i
          || decide (2 = i)) := by
    intro i
    rw [huk, Nat.testBit_or, show PTE_U = 2 ^ 2 from rfl, Nat.testBit_two_pow]
  have hk2 : (4096 * (vtop page / 4096) + (if w = true then 3 else 1)).testBit 2 = false := by
    rw [testBit_entry_flags _ _ 2 hk (by norm_num)]
    cases w <;> decide
  refine ⟨_, _, pte_create_kernel_eq vtop page w hal hpal,
    pte_create_user_eq vtop page w hal hpal, ?_, ?_, ?_, ?_, ?_, huk, ?_, ?_, ?_⟩
  · rw [and_flag_of_entry _ _ PTE_FLAGS hk (by decide)]
    cases w <;> decide
  · rw [and_flag_of_entry _ _ PTE_P hk (by decide)]
    cases w <;> decide
  · rw [and_flag_of_entry _ _ PTE_W hk (by decide)]
    cases w <;> decide
  · rw [and_flag_of_entry _ _ PTE_U hk (by decide)]
    cases w <;> decide
  · rw [addr_of_entry _ _ (by omega) hk, hv]
  · apply Nat.eq_of_testBit_eq
    intro i
    rw [Nat.testBit_xor, hbit i, show PTE_U = 2 ^ 2 from rfl, Nat.testBit_two_pow]
    by_cases h2 : 2 = i
    · subst h2
      rw [hk2]
      simp
    · simp [h2]
  · intro i hi
    rw [hbit i]
    simp [Ne.symm hi]
  · rw [hbit 2]
    simp

theorem pte_create_layout_witness :
    ∃ k u, pte_create_kernel (fun v => v - 0xc0000000) 0xc0100000 true = some k
      ∧ pte_create_user (fun v => v - 0xc0000000) 0xc0100000 true = some u
      ∧ k &&& PTE_FLAGS = (if true then PTE_P ||| PTE_W else PTE_P)
      ∧ k &&& PTE_P = PTE_P
      ∧ ((k &&& PTE_W ≠ 0) ↔ true = true)
      ∧ k &&& PTE_U = 0
      ∧ k &&& PTE_ADDR = (fun v => v - 0xc0000000) 0xc0100000
      ∧ u = k ||| PTE_U
      ∧ u ^^^ k = PTE_U
      ∧ (∀ i, i ≠ 2 → u.testBit i = k.testBit i)
      ∧ u.testBit 2 = true :=
  pte_create_layout (fun v => v - 0xc0000000) 0xc0100000 true
    (by decide) (by decide) (by decide)

/-- C13: `pde_create`, `pte_create_kernel` and `pte_create_user` each fail the alignment
assertion (no entry is produced) exactly for the addresses whose low 12 bits are non-zero;
for every address whose low 12 bits are zero the assertion passes. -/
theorem alignment_precondition (vtop : Nat → Nat) (a : Nat) (w : Bool) :
    (pde_create vtop a = none ↔ a % 4096 ≠ 0)
    ∧ (pte_create_kernel vtop a w = none ↔ a % 4096 ≠ 0)
    ∧ (pte_create_user vtop a w = none ↔ a % 4096 ≠ 0)
    ∧ ((pde_create vtop a).isSome = true ↔ a % 4096 = 0)
    ∧ ((pte_create_kernel vtop a w).isSome = true ↔ a % 4096 = 0)
    ∧ ((pte_create_user vtop a w).isSome = true ↔ a % 4096 = 0) := by
  unfold pte_create_user pte_create_kernel pde_create
  rw [pg_ofs_eq]
  by_cases h : a % 4096 = 0
  · simp [h]
  · simp [h]

theorem and_two_pow_eq (e k : Nat) : e &&& 2 ^ k = if e.testBit k then 2 ^ k else 0 := by
  apply Nat.eq_of_testBit_eq
  intro i
  rw [Nat.testBit_and, Nat.testBit_two_pow]
  by_cases hk : k = i
  · subst hk
    cases h : e.testBit k <;> simp
  · cases h : e.testBit k <;> simp [hk, Nat.testBit_two_pow]

theorem and_two_pow_ne_zero (e k : Nat) : (e &&& 2 ^ k ≠ 0) ↔ e.testBit k = true := by
  rw [and_two_pow_eq]
  cases h : e.testBit k
  · simp
  · simp

theorem and_addr_congr (p q : Nat) (h : ∀ i, 12 ≤ i → p.testBit i = q.testBit i) :
    p &&& PTE_ADDR = q &&& PTE_ADDR := by
  apply Nat.eq_of_testBit_eq
  intro i
  rw [Nat.testBit_and, Nat.testBit_and, PTE_ADDR_eq, Nat.testBit_shiftLeft]
  by_cases hi : 12 ≤ i
  · rw [h i hi]
  · simp [hi]

/-- C14: `pde_get_pt pde` fails its assertion exactly when bit 0 (present) of `pde` is
clear; when the bit is set it returns `ptov (pde & 0xfffff000)`, and two present entries
that agree on bits 12-31 give the same result whatever their bits 1-11. -/
theorem pde_get_pt_present (ptov : Nat → Nat) (pde : Nat) :
    (pde_get_pt ptov pde = none ↔ pde.testBit 0 = false)
    ∧ (pde.testBit 0 = true → pde_get_pt ptov pde = some (ptov (pde &&& 0xfffff000)))
    ∧ (∀ q : Nat, pde.testBit 0 = true → q.testBit 0 = true →
        (∀ i, 12 ≤ i → pde.testBit i = q.testBit i) →
        pde_get_pt ptov pde = pde_get_pt ptov q) := by
  have hp : ∀ x : Nat, (x &&& PTE_P ≠ 0) ↔ x.testBit 0 = true := fun x =>
    and_two_pow_ne_zero x 0
  have hsome : ∀ x : Nat, x.testBit 0 = true →
      pde_get_pt ptov x = some (ptov (x &&& PTE_ADDR)) := by
    intro x hx
    unfold pde_get_pt
    rw [if_pos ((hp x).mpr hx)]
  refine ⟨?_, hsome pde, ?_⟩
  · cases hb : pde.testBit 0
    · unfold pde_get_pt
      have hn : ¬ (pde &&& PTE_P ≠ 0) := fun hc => by
        rw [(hp pde).mp hc] at hb
        exact Bool.noConfusion hb
      rw [if_neg hn]
      simp
    · rw [hsome pde hb]
      simp
  · intro q h1 h2 hagree
    rw [hsome pde h1, hsome q h2, and_addr_congr pde q hagree]

theorem pde_get_pt_present_witness :
    pde_get_pt (fun p => p + 0xc0000000) 0x00100007
        = some ((fun p => p + 0xc0000000) (0x00100007 &&& 0xfffff000))
    ∧ pde_get_pt (fun p => p + 0xc0000000) 0x00100007
        = pde_get_pt (fun p => p + 0xc0000000) 0x00100e79 :=
  ⟨(pde_get_pt_present (fun p => p + 0xc0000000) 0x00100007).2.1 (by decide),
    (pde_get_pt_present (fun p => p + 0xc0000000) 0x00100007).2.2 0x00100e79
      (by decide) (by decide) (by
        intro i hi
        have e1 : (0x00100007 : Nat) = 4096 * 256 + 7 := by norm_num
        have e2 : (0x00100e79 : Nat) = 4096 * 256 + 3705 := by norm_num
        have hs : ∀ f : Nat, f < 4096 → (4096 * 256 + f).testBit i = (256 : Nat).testBit (i - 12) := by
          intro f hf
          rw [← mul_or_flags 256 f hf, Nat.testBit_or, show (4096 : Nat) = 2 ^ 12 from rfl,
            Nat.testBit_mul_pow_two]
          have hlt : f < 2 ^ i :=
            lt_of_lt_of_le hf (le_trans (by norm_num) (Nat.pow_le_pow_right (by norm_num) hi))
          simp [hi, Nat.testBit_lt_two_pow hlt]
        rw [e1, e2, hs 7 (by norm_num), hs 3705 (by norm_num)])⟩

/-- C15: `pte_get_page` has no assertion: for every entry word, present or not, it returns
`ptov (pte & 0xfffff000)`, so two entries that agree on every bit from 12 upwards (differ
only in bits 0-11) decode to the same page. -/
theorem pte_get_page_total (ptov : Nat → Nat) (pte : Nat) :
    pte_get_page ptov pte = ptov (pte &&& 0xfffff000)
    ∧ (∀ q : Nat, (∀ i, 12 ≤ i → pte.testBit i = q.testBit i) →
        pte_get_page ptov pte = pte_get_page ptov q)
    ∧ (∀ f : Nat, f < 4096 →
        pte_get_page ptov (4096 * (pte / 4096) + f) = pte_get_page ptov pte) := by
  refine ⟨rfl, ?_, ?_⟩
  · intro q hagree
    unfold pte_get_page
    rw [and_addr_congr pte q hagree]
  · intro f hf
    unfold pte_get_page
    apply congrArg
    apply and_addr_congr
    intro i hi
    have hlt : f < 2 ^ i :=
      lt_of_lt_of_le hf (le_trans (by norm_num) (Nat.pow_le_pow_right (by norm_num) hi))
    rw [← mul_or_flags _ f hf, Nat.testBit_or, show (4096 : Nat) = 2 ^ 12 from rfl,
      Nat.testBit_mul_pow_two, ← Nat.shiftRight_eq_div_pow, Nat.testBit_shiftRight,
      Nat.testBit_lt_two_pow hlt]
    have e : 12 + (i - 12) = i := by omega
    simp [hi, e]

theorem pte_get_page_total_witness :
    pte_get_page (fun p => p + 0xc0000000) (4096 * (0x00100e78 / 4096) + 7)
      = pte_get_page (fun p => p + 0xc0000000) 0x00100e78 :=
  (pte_get_page_total (fun p => p + 0xc0000000) 0x00100e78).2.2 7 (by decide)

theorem or_two_pow_of_testBit (e k : Nat) (h : e.testBit k = true) : e ||| 2 ^ k = e := by
  apply Nat.eq_of_testBit_eq
  intro i
  rw [Nat.testBit_or, Nat.testBit_two_pow]
  by_cases hk : k = i
  · subst hk
    simp [h]
  · simp [hk]

theorem is_MMF_eq_testBit (e : Nat) : is_MMF e = e.testBit 3 := by
  unfold is_MMF
  rw [show PTE_MMF = 2 ^ 3 from rfl, and_two_pow_eq]
  cases e.testBit 3 <;> decide

theorem is_shared_eq_testBit (e : Nat) : is_shared e = e.testBit 4 := by
  unfold is_shared
  rw [show PTE_SHARED = 2 ^ 4 from rfl, and_two_pow_eq]
  cases e.testBit 4 <;> decide

/-- C16: `set_MMF` applied twice gives the word it gives when applied once, and leaves a
word unchanged when `is_MMF` already holds; the same for `set_shared` and `is_shared`. -/
theorem flag_setters_idempotent (e : Nat) :
    set_MMF (set_MMF e) = set_MMF e
    ∧ (is_MMF e = true → set_MMF e = e)
    ∧ set_shared (set_shared e) = set_shared e
    ∧ (is_shared e = true → set_shared e = e) := by
  refine ⟨?_, ?_, ?_, ?_⟩
  · unfold set_MMF
    rw [Nat.lor_assoc, Nat.or_self]
  · intro h
    rw [is_MMF_eq_testBit] at h
    exact or_two_pow_of_testBit e 3 h
  · unfold set_shared
    rw [Nat.lor_assoc, Nat.or_self]
  · intro h
    rw [is_shared_eq_testBit] at h
    exact or_two_pow_of_testBit e 4 h

theorem flag_setters_idempotent_witness :
    set_MMF 0x0010000f = 0x0010000f ∧ set_shared 0x00100017 = 0x00100017 :=
  ⟨(flag_setters_idempotent 0x0010000f).2.1 (by decide),
    (flag_setters_idempotent 0x00100017).2.2.2 (by decide)⟩

/-- C17: for every entry word `e`, `set_MMF e` has bit 3 set and every other bit as in `e`,
and `is_MMF` of it is true; `set_shared e` has bit 4 set and every other bit as in `e`, and
`is_shared` of it is true; `is_MMF` and `is_shared` return exactly bit 3 and bit 4. -/
theorem flag_setters_one_bit (e : Nat) :
    (set_MMF e).testBit 3 = true
    ∧ (∀ i, i ≠ 3 → (set_MMF e).testBit i = e.testBit i)
    ∧ is_MMF (set_MMF e) = true
    ∧ (set_shared e).testBit 4 = true
    ∧ (∀ i, i ≠ 4 → (set_shared e).testBit i = e.testBit i)
    ∧ is_shared (set_shared e) = true
    ∧ is_MMF e = e.testBit 3
    ∧ is_shared e = e.testBit 4 := by
  have hm : ∀ i, (set_MMF e).testBit i = (e.testBit i || decide (3 = i)) := by
    intro i
    unfold set_MMF
    rw [Nat.testBit_or, show PTE_MMF = 2 ^ 3 from rfl, Nat.testBit_two_pow]
  have hs : ∀ i, (set_shared e).testBit i = (e.testBit i || decide (4 = i)) := by
    intro i
    unfold set_shared
    rw [Nat.testBit_or, show PTE_SHARED = 2 ^ 4 from rfl, Nat.testBit_two_pow]
  refine ⟨?_, ?_, ?_, ?_, ?_, ?_, is_MMF_eq_testBit e, is_shared_eq_testBit e⟩
  · rw [hm 3]
    simp
  · intro i hi
    rw [hm i]
    simp [Ne.symm hi]
  · rw [is_MMF_eq_testBit, hm 3]
    simp
  · rw [hs 4]
    simp
  · intro i hi
    rw [hs i]
    simp [Ne.symm hi]
  · rw [is_shared_eq_testBit, hs 4]
    simp

theorem flag_setters_one_bit_witness :
    (set_MMF 0x00100007).testBit 5 = (0x00100007 : Nat).testBit 5
    ∧ (set_shared 0x00100007).testBit 3 = (0x00100007 : Nat).testBit 3 :=
  ⟨(flag_setters_one_bit 0x00100007).2.1 5 (by decide),
    (flag_setters_one_bit 0x00100007).2.2.2.2.1 3 (by decide)⟩

/-- C18: for every 32-bit entry word `e`, `get_swap_page_no e` is `e >> 12` (bits 12-31 of
`e`), a non-negative `int` in `[0, 2^20 - 1]`, and it is the same for every word that has
the bits 12-31 of `e` whatever its bits 0-11. -/
theorem get_swap_page_no_shift (e : Nat) (he : e < 2 ^ 32) :
    get_swap_page_no e = ((e >>> 12 : Nat) : Int)
    ∧ 0 ≤ get_swap_page_no e
    ∧ get_swap_page_no e ≤ 2 ^ 20 - 1
    ∧ (∀ i, (e >>> 12).testBit i = e.testBit (12 + i))
    ∧ (∀ f : Nat, f < 4096 →
        get_swap_page_no (4096 * (e / 4096) + f) = get_swap_page_no e) := by
  have hg : ∀ x : Nat, x < 2 ^ 32 → get_swap_page_no x = ((x / 4096 : Nat) : Int) := by
    intro x hx
    unfold get_swap_page_no toInt32 wrapInt32
    rw [show PGBITS = 12 from rfl, shiftRight_12]
    omega
  refine ⟨?_, ?_, ?_, ?_, ?_⟩
  · rw [hg e he, shiftRight_12]
  · rw [hg e he]
    omega
  · rw [hg e he]
    omega
  · intro i
    rw [Nat.testBit_shiftRight]
  · intro f hf
    rw [hg e he, hg _ (by omega)]
    congr 1
    omega

theorem get_swap_page_no_shift_witness :
    get_swap_page_no 0xfffffabc = ((0xfffffabc >>> 12 : Nat) : Int)
    ∧ 0 ≤ get_swap_page_no 0xfffffabc
    ∧ get_swap_page_no 0xfffffabc ≤ 2 ^ 20 - 1
    ∧ (∀ i, (0xfffffabc >>> 12 : Nat).testBit i = (0xfffffabc : Nat).testBit (12 + i))
    ∧ (∀ f : Nat, f < 4096 →
        get_swap_page_no (4096 * (0xfffffabc / 4096) + f) = get_swap_page_no 0xfffffabc) :=
  get_swap_page_no_shift 0xfffffabc (by decide)

/-- C19: for a page-aligned `page` whose physical address `vtop page` is `0x00100000`,
`pte_create_user (page, true)` is the word `0x00100007` (low 12 bits `0b111`, bits 12-31
equal to `0x00100`); `set_MMF` makes it `0x0010000F`, changing bit 3 only; after the present
bit is cleared and `set_swap_page_no` is called with 42, `get_swap_page_no` returns 42 and
`is_MMF` is still true. -/
theorem eviction_scenario (vtop : Nat → Nat) (page : Nat) (hal : pg_ofs page = 0)
    (hv : vtop page = 0x00100000) :
    pte_create_user vtop page true = some 0x00100007
    ∧ 0x00100007 &&& PTE_FLAGS = 0b111
    ∧ 0x00100007 >>> 12 = 0x00100
    ∧ set_MMF 0x00100007 = 0x0010000F
    ∧ 0x0010000F ^^^ 0x00100007 = 2 ^ 3
    ∧ 0x0010000F &&& not32 PTE_P = 0x0010000E
    ∧ set_swap_page_no 0x0010000E 42 = some 0x0002A00E
    ∧ get_swap_page_no 0x0002A00E = 42
    ∧ is_MMF 0x0002A00E = true := by
  refine ⟨?_, by decide, by decide, by decide, by decide, by decide, by decide, by decide,
    by decide⟩
  unfold pte_create_user pte_create_kernel
  rw [if_pos hal, hv]
  decide

theorem eviction_scenario_witness :
    pte_create_user (fun v => v - 0xc0000000) 0xc0100000 true = some 0x00100007
    ∧ 0x00100007 &&& PTE_FLAGS = 0b111
    ∧ 0x00100007 >>> 12 = 0x00100
    ∧ set_MMF 0x00100007 = 0x0010000F
    ∧ 0x0010000F ^^^ 0x00100007 = 2 ^ 3
    ∧ 0x0010000F &&& not32 PTE_P = 0x0010000E
    ∧ set_swap_page_no 0x0010000E 42 = some 0x0002A00E
    ∧ get_swap_page_no 0x0002A00E = 42
    ∧ is_MMF 0x0002A00E = true :=
  eviction_scenario (fun v => v - 0xc0000000) 0xc0100000 (by decide) (by decide)

/-- Slot 0 stored in an entry whose bits 0-11 are zero leaves the zero word, and every slot
`s` with `0 < s < MAX_SWAP_PAGE_NO` leaves a non-zero word. -/
theorem swap_slot_zero_collides (e : Nat) (s : Int) :
    (e % 4096 = 0 → set_swap_page_no e 0 = some 0)
    ∧ (0 < s → s < MAX_SWAP_PAGE_NO → ∃ e1, set_swap_page_no e s = some e1 ∧ e1 ≠ 0) := by
  constructor
  · intro he
    rw [set_swap_page_no_eq e 0 (by decide), shifted_slot_field 0 le_rfl (by decide), he]
    rfl
  · intro h0 h1
    have h1' : s < 1048575 := by simpa [MAX_SWAP_PAGE_NO] using h1
    refine ⟨_, set_swap_page_no_eq e s h1, ?_⟩
    rw [shifted_slot_field s (le_of_lt h0) (by omega)]
    omega

/-- C20 (evaluation at the failing input): the non-zero slot value `-1048576` passes the
assertion of `set_swap_page_no`, and stored in the zero entry it leaves the zero word, the
same word that slot 0 leaves. -/
theorem set_swap_page_no_nonzero_slot_zero_word :
    (-1048576 : Int) < MAX_SWAP_PAGE_NO
    ∧ (-1048576 : Int) ≠ 0
    ∧ set_swap_page_no 0 (-1048576) = some 0
    ∧ set_swap_page_no 0 0 = some 0 := by
  decide

end Pte
